import Mathlib

/-!
Shallow embedding of the student record store in `src/streamlit_app.py`.

The store is a SQLite database (`students.db`) accessed through Python's
`sqlite3` module.  Two tables:

  students(id INTEGER PRIMARY KEY AUTOINCREMENT, name TEXT NOT NULL UNIQUE)
  records(id INTEGER PRIMARY KEY AUTOINCREMENT, student_id INTEGER,
          date TEXT NOT NULL, content TEXT NOT NULL,
          FOREIGN KEY (student_id) REFERENCES students(id) ON DELETE CASCADE)

Embedding decisions, each traceable to the source:

* A table is a list of rows in insertion order, plus the AUTOINCREMENT
  sequence value (SQLite's `sqlite_sequence` entry: the largest rowid ever
  assigned; a fresh table has sequence 0 and the next insert gets 1).
* `CREATE TABLE IF NOT EXISTS` is modelled with two existence flags: when a
  table already exists the statement leaves rows and sequence untouched,
  otherwise it creates the table empty.
* The Python `sqlite3` module never enables `PRAGMA foreign_keys`, and the
  source contains no such pragma, so SQLite runs with foreign-key
  enforcement OFF: the declared `FOREIGN KEY ... ON DELETE CASCADE` clause
  is inert.  Consequently `DELETE FROM students` removes only student rows
  (no cascade), and `INSERT INTO records` succeeds for any `student_id`.
* `ORDER BY <text column>` uses SQLite's BINARY collation: bytewise
  comparison of the UTF-8 encodings, which coincides with the
  codepoint-lexicographic order of Lean's `String`.  `ORDER BY` is embedded
  as a sort with respect to the corresponding total preorder.
* `sqlite3.IntegrityError` on the unique-name INSERT makes `add_student`
  take its `except` branch and return `False`; no row is written.
-/

namespace StudentApp

/-- SQLite's BINARY collation on TEXT values: `memcmp` on the UTF-8
encodings, a shorter string that is a prefix of a longer one comparing as
smaller.  UTF-8 byte order coincides with codepoint order, so this is
lexicographic comparison of the codepoint sequences. -/
def charListLt : List Char → List Char → Bool
  | _, [] => false
  | [], _ :: _ => true
  | a :: as, b :: bs =>
    if a < b then true
    else if b < a then false
    else charListLt as bs

/-- BINARY-collation strict comparison of two TEXT values. -/
def stringLt (s t : String) : Bool := charListLt s.data t.data

/-- BINARY-collation non-strict comparison of two TEXT values. -/
def stringLe (s t : String) : Bool := !(stringLt t s)

/-- A row of the `students` table. -/
structure Student where
  id : Nat
  name : String
deriving DecidableEq

/-- A row of the `records` table. -/
structure NoteRecord where
  id : Nat
  student_id : Nat
  date : String
  content : String
deriving DecidableEq

/-- The state of the `students.db` database file. -/
structure DB where
  studentsTableExists : Bool
  recordsTableExists : Bool
  students : List Student
  records : List NoteRecord
  /-- AUTOINCREMENT sequence of `students`: largest student id ever assigned. -/
  studentSeq : Nat
  /-- AUTOINCREMENT sequence of `records`: largest record id ever assigned. -/
  recordSeq : Nat
deriving DecidableEq

/-- `init_db`: `CREATE TABLE IF NOT EXISTS` for both tables.  An existing
table is left untouched; a missing table is created empty (sequence 0). -/
def init_db (db : DB) : DB :=
  { studentsTableExists := true
    recordsTableExists := true
    students := if db.studentsTableExists then db.students else []
    records := if db.recordsTableExists then db.records else []
    studentSeq := if db.studentsTableExists then db.studentSeq else 0
    recordSeq := if db.recordsTableExists then db.recordSeq else 0 }

/-- `add_student(name)`: `INSERT INTO students (name) VALUES (?)`.
The UNIQUE constraint on `name` raises `sqlite3.IntegrityError` when the
name is already present; the `except` branch returns `False` and no row is
written.  Otherwise AUTOINCREMENT assigns id `studentSeq + 1` and the
function returns `True`. -/
def add_student (db : DB) (name : String) : Bool × DB :=
  if db.students.any (fun s => s.name == name) then
    (false, db)
  else
    (true,
      { db with
        students := db.students ++ [⟨db.studentSeq + 1, name⟩]
        studentSeq := db.studentSeq + 1 })

/-- The relation of `ORDER BY name ASC` on the projected rows of
`SELECT id, name FROM students`. -/
def studentNameLE (a b : Nat × String) : Prop := stringLe a.2 b.2 = true

instance : DecidableRel studentNameLE := fun a b =>
  inferInstanceAs (Decidable (stringLe a.2 b.2 = true))

/-- `get_students()`: `SELECT id, name FROM students ORDER BY name ASC`. -/
def get_students (db : DB) : List (Nat × String) :=
  List.insertionSort studentNameLE (db.students.map (fun s => (s.id, s.name)))

/-- `delete_student(student_id)`: `DELETE FROM students WHERE id = ?`.
Foreign-key enforcement is off (no `PRAGMA foreign_keys`), so the
`ON DELETE CASCADE` clause is inert: rows of `records` are untouched. -/
def delete_student (db : DB) (student_id : Nat) : DB :=
  { db with students := db.students.filter (fun s => s.id != student_id) }

/-- `add_record(student_id, date, content)`:
`INSERT INTO records (student_id, date, content) VALUES (?, ?, ?)`.
Foreign-key enforcement is off, so the insert succeeds for any
`student_id`; AUTOINCREMENT assigns id `recordSeq + 1`. -/
def add_record (db : DB) (student_id : Nat) (date content : String) : DB :=
  { db with
    records := db.records ++ [⟨db.recordSeq + 1, student_id, date, content⟩]
    recordSeq := db.recordSeq + 1 }

/-- The relation of `ORDER BY date DESC` on the projected rows of
`SELECT id, date, content FROM records`. -/
def recordDateGE (a b : Nat × String × String) : Prop := stringLe b.2.1 a.2.1 = true

instance : DecidableRel recordDateGE := fun a b =>
  inferInstanceAs (Decidable (stringLe b.2.1 a.2.1 = true))

/-- `get_records(student_id)`: `SELECT id, date, content FROM records
WHERE student_id = ? ORDER BY date DESC`. -/
def get_records (db : DB) (student_id : Nat) : List (Nat × String × String) :=
  List.insertionSort recordDateGE
    ((db.records.filter (fun r => r.student_id == student_id)).map
      (fun r => (r.id, r.date, r.content)))

/-- `delete_record(record_id)`: `DELETE FROM records WHERE id=?`. -/
def delete_record (db : DB) (record_id : Nat) : DB :=
  { db with records := db.records.filter (fun r => r.id != record_id) }

/-- One call to a mutating entry point of the store (the reads
`get_students` and `get_records` do not change the database). -/
inductive Op where
  | opInitDb : Op
  | opAddStudent : String → Op
  | opDeleteStudent : Nat → Op
  | opAddRecord : Nat → String → String → Op
  | opDeleteRecord : Nat → Op
deriving DecidableEq

/-- Effect of one store call on the database. -/
def applyOp (db : DB) : Op → DB
  | .opInitDb => init_db db
  | .opAddStudent name => (add_student db name).2
  | .opDeleteStudent i => delete_student db i
  | .opAddRecord sid date content => add_record db sid date content
  | .opDeleteRecord i => delete_record db i

/-- Effect of a sequence of store calls, first call first. -/
def runOps (db : DB) (ops : List Op) : DB := ops.foldl applyOp db

/-- Well-formedness of a database state reachable by the application:
`init_db` has run (both tables exist) and, as SQLite's AUTOINCREMENT
guarantees, every row id is at most the table's sequence value. -/
def DB.WF (db : DB) : Prop :=
  db.studentsTableExists = true ∧ db.recordsTableExists = true ∧
  (∀ s ∈ db.students, s.id ≤ db.studentSeq) ∧
  (∀ r ∈ db.records, r.id ≤ db.recordSeq)

/-- The id that a successful `add_student` would assign next (AUTOINCREMENT:
sequence value plus one). -/
def nextStudentId (db : DB) : Nat := db.studentSeq + 1

/-- The id that `add_record` would assign next. -/
def nextRecordId (db : DB) : Nat := db.recordSeq + 1

/-- Lifecycle events of the `sqlite3` connection a store function opens. -/
inductive ConnEvent where
  | opened
  | closed
deriving DecidableEq

/-- Connection events of `init_db`: `sqlite3.connect`, two `execute`s,
`commit`, `conn.close()`. -/
def init_db_conn_events (_db : DB) : List ConnEvent := [.opened, .closed]

/-- Connection events of `add_student`: inside `try`, `sqlite3.connect` is
called; when the INSERT hits the UNIQUE(name) constraint it raises
`sqlite3.IntegrityError` and the `except` branch returns `False` without
ever calling `conn.close()`; otherwise `commit` and `close` run. -/
def add_student_conn_events (db : DB) (name : String) : List ConnEvent :=
  if db.students.any (fun s => s.name == name) then [.opened]
  else [.opened, .closed]

/-- Connection events of `get_students`: connect, query, `conn.close()`. -/
def get_students_conn_events (_db : DB) : List ConnEvent := [.opened, .closed]

/-- Connection events of `delete_student`: connect, delete, commit, close. -/
def delete_student_conn_events (_db : DB) (_student_id : Nat) : List ConnEvent :=
  [.opened, .closed]

/-- Connection events of `add_record`: connect, insert, commit, close. -/
def add_record_conn_events (_db : DB) (_student_id : Nat)
    (_date _content : String) : List ConnEvent := [.opened, .closed]

/-- Connection events of `get_records`: connect, query, close. -/
def get_records_conn_events (_db : DB) (_student_id : Nat) : List ConnEvent :=
  [.opened, .closed]

/-- Connection events of `delete_record`: connect, delete, commit, close. -/
def delete_record_conn_events (_db : DB) (_record_id : Nat) : List ConnEvent :=
  [.opened, .closed]

/-- A function releases its connection before returning when every
connection it opened is closed. -/
def connReleased (events : List ConnEvent) : Bool :=
  events.count .opened == events.count .closed

/-- An empty, freshly initialized database. -/
def dbEmpty : DB := ⟨true, true, [], [], 0, 0⟩

/-- A database holding one student `(1, "Amy")` and one record
`(1, 1, "2024-03-01", "Met with parent")` owned by her. -/
def dbAmy : DB := ⟨true, true, [⟨1, "Amy"⟩], [⟨1, 1, "2024-03-01", "Met with parent"⟩], 1, 1⟩

/-- A database where "Zoe" was inserted before "Amy". -/
def dbZoeAmy : DB := ⟨true, true, [⟨1, "Zoe"⟩, ⟨2, "Amy"⟩], [], 2, 0⟩

/-- The same rows as `dbZoeAmy` with the insertion order reversed. -/
def dbAmyZoe : DB := ⟨true, true, [⟨2, "Amy"⟩, ⟨1, "Zoe"⟩], [], 2, 0⟩

/-! ### Order facts about the BINARY collation -/

theorem charListLt_asymm : ∀ (a b : List Char),
    charListLt a b = true → charListLt b a = false
  | _, [], h => by simp [charListLt] at h
  | [], _ :: _, _ => by simp [charListLt]
  | a :: as, b :: bs, h => by
    simp only [charListLt] at h ⊢
    by_cases hab : a < b
    · simp [hab, lt_asymm hab]
    · by_cases hba : b < a
      · simp [hab, hba] at h
      · simpa [hab, hba] using charListLt_asymm as bs (by simpa [hab, hba] using h)

theorem charListLt_trans : ∀ (a b c : List Char),
    charListLt a b = true → charListLt b c = true → charListLt a c = true
  | _, _, [], _, h2 => by simp [charListLt] at h2
  | [], _, _ :: _, _, _ => by simp [charListLt]
  | _ :: _, [], _ :: _, h1, _ => by simp [charListLt] at h1
  | a :: as, b :: bs, c :: cs, h1, h2 => by
    simp only [charListLt] at h1 h2 ⊢
    by_cases hab : a < b
    · by_cases hbc : b < c
      · simp [lt_trans hab hbc]
      · by_cases hcb : c < b
        · simp [hbc, hcb] at h2
        · have hbc' : b = c := le_antisymm (not_lt.mp hcb) (not_lt.mp hbc)
          simp [hbc' ▸ hab]
    · by_cases hba : b < a
      · simp [hab, hba] at h1
      · have hab' : a = b := le_antisymm (not_lt.mp hba) (not_lt.mp hab)
        subst hab'
        by_cases hac : a < c
        · simp [hac]
        · by_cases hca : c < a
          · simp [hac, hca] at h2
          · simpa [hac, hca] using
              charListLt_trans as bs cs (by simpa [hab] using h1)
                (by simpa [hac, hca] using h2)

theorem charListLt_eq_of_not : ∀ (a b : List Char),
    charListLt a b = false → charListLt b a = false → a = b
  | [], [], _, _ => rfl
  | [], _ :: _, h1, _ => by simp [charListLt] at h1
  | _ :: _, [], _, h2 => by simp [charListLt] at h2
  | a :: as, b :: bs, h1, h2 => by
    simp only [charListLt] at h1 h2
    by_cases hab : a < b
    · simp [hab] at h1
    · by_cases hba : b < a
      · simp [hba] at h2
      · have he : a = b := le_antisymm (not_lt.mp hba) (not_lt.mp hab)
        have ht : as = bs :=
          charListLt_eq_of_not as bs (by simpa [hab, hba] using h1)
            (by simpa [hab, hba] using h2)
        rw [he, ht]

theorem stringLt_asymm {s t : String} (h : stringLt s t = true) :
    stringLt t s = false :=
  charListLt_asymm s.data t.data h

theorem stringLe_total (s t : String) :
    stringLe s t = true ∨ stringLe t s = true := by
  unfold stringLe
  rcases hts : stringLt t s with _ | _
  · left; simp
  · right; simp [stringLt_asymm hts]

theorem stringLt_eq_of_not {s t : String} (h1 : stringLt s t = false)
    (h2 : stringLt t s = false) : s = t := by
  have hd : s.data = t.data := charListLt_eq_of_not s.data t.data h1 h2
  cases s; cases t; exact congrArg String.mk hd

theorem stringLe_trans {s t u : String} (hst : stringLe s t = true)
    (htu : stringLe t u = true) : stringLe s u = true := by
  simp only [stringLe, Bool.not_eq_true'] at hst htu ⊢
  rcases hus : stringLt u s with _ | _
  · rfl
  · exfalso
    rcases hst' : stringLt s t with _ | _
    · have he : s = t := stringLt_eq_of_not hst' hst
      rw [he] at hus
      simp [hus] at htu
    · have h1 : stringLt u t = true :=
        charListLt_trans u.data s.data t.data hus hst'
      simp [h1] at htu

/-- `stringLe` together with inequality gives the strict comparison. -/
theorem stringLt_of_le_of_ne {s t : String} (hle : stringLe s t = true)
    (hne : s ≠ t) : stringLt s t = true := by
  simp only [stringLe, Bool.not_eq_true'] at hle
  rcases hst : stringLt s t with _ | _
  · exact absurd (stringLt_eq_of_not hst hle) hne
  · rfl

instance : IsTotal (Nat × String) studentNameLE :=
  ⟨fun a b => stringLe_total a.2 b.2⟩

instance : IsTrans (Nat × String) studentNameLE :=
  ⟨fun _ _ _ h h' => stringLe_trans h h'⟩

instance : IsTotal (Nat × String × String) recordDateGE :=
  ⟨fun a b => stringLe_total b.2.1 a.2.1⟩

instance : IsTrans (Nat × String × String) recordDateGE :=
  ⟨fun _ _ _ h h' => stringLe_trans h' h⟩

/-! ### General lemmas about the store -/

/-- On a database whose tables already exist, `CREATE TABLE IF NOT EXISTS`
changes nothing. -/
theorem init_db_of_tables_exist {db : DB} (hs : db.studentsTableExists = true)
    (hr : db.recordsTableExists = true) : init_db db = db := by
  cases db
  simp only [init_db] at *
  simp [hs, hr]

/-! ### The claims -/

/-- C1: the spec claims `deleteStudent(S.id)` removes S and, by cascade,
every record owned by S, so that `listRecords(S.id)` is afterwards empty.
The code declares `ON DELETE CASCADE` but never enables
`PRAGMA foreign_keys` (off by default in `sqlite3`), so the cascade never
runs: on the database holding student `(1, "Amy")` with one record,
`delete_student 1` removes the student row, yet `get_records 1` still
returns that record instead of the empty sequence. -/
theorem delete_student_does_not_cascade :
    get_students (delete_student dbAmy 1) = [] ∧
    get_records (delete_student dbAmy 1) 1 =
      [(1, "2024-03-01", "Met with parent")] := by decide

/-- C2: the spec claims the store rejects `addRecord` when the owning
student does not exist and that no record ever refers to a missing
student.  With foreign-key enforcement off, `add_record` on the empty
database with the nonexistent student id 99 succeeds and creates exactly
such an orphan record, which `get_records 99` then returns. -/
theorem add_record_accepts_orphan :
    dbEmpty.students = [] ∧
    (add_record dbEmpty 99 "2024-01-01" "observation").students = [] ∧
    (add_record dbEmpty 99 "2024-01-01" "observation").records =
      [⟨1, 99, "2024-01-01", "observation"⟩] ∧
    get_records (add_record dbEmpty 99 "2024-01-01" "observation") 99 =
      [(1, "2024-01-01", "observation")] := by decide

/-- C9: the spec claims every operation releases its connection on every
exit path, in particular `addStudent` after a uniqueness violation.  In
the code the `except sqlite3.IntegrityError` branch of `add_student`
returns `False` without executing `conn.close()`: on a database already
containing "Amy", adding "Amy" again opens a connection and never closes
it, while all other exit paths and operations do close theirs. -/
theorem add_student_leaks_connection_on_duplicate :
    (add_student dbAmy "Amy").1 = false ∧
    add_student_conn_events dbAmy "Amy" = [ConnEvent.opened] ∧
    connReleased (add_student_conn_events dbAmy "Amy") = false ∧
    connReleased (add_student_conn_events dbAmy "Zoe") = true ∧
    connReleased (init_db_conn_events dbAmy) = true ∧
    connReleased (get_students_conn_events dbAmy) = true ∧
    connReleased (delete_student_conn_events dbAmy 1) = true ∧
    connReleased (add_record_conn_events dbAmy 1 "2024-03-02" "x") = true ∧
    connReleased (get_records_conn_events dbAmy 1) = true ∧
    connReleased (delete_record_conn_events dbAmy 1) = true := by decide

/-- C3: on a store whose student names are unique (the invariant the
UNIQUE constraint maintains), adding a name that is already present
returns `false` and leaves the database unchanged, and the student
listing still shows exactly one entry carrying that name. -/
theorem add_student_duplicate_rejected (db : DB) (name : String)
    (hmem : name ∈ db.students.map Student.name)
    (hnodup : (db.students.map Student.name).Nodup) :
    add_student db name = (false, db) ∧
    ((get_students (add_student db name).2).filter
      (fun p => p.2 == name)).length = 1 := by
  obtain ⟨s, hsm, hsname⟩ := List.mem_map.mp hmem
  have hdup : db.students.any (fun t => t.name == name) = true :=
    List.any_eq_true.mpr ⟨s, hsm, by simp [hsname]⟩
  have hfail : add_student db name = (false, db) := by
    simp [add_student, hdup]
  refine ⟨hfail, ?_⟩
  rw [hfail]
  rw [← List.countP_eq_length_filter]
  have hperm := List.perm_insertionSort studentNameLE
    (db.students.map (fun t => (t.id, t.name)))
  rw [get_students, hperm.countP_eq, List.countP_map]
  have hcomp : ((fun p : Nat × String => p.2 == name) ∘
      fun t : Student => (t.id, t.name)) = fun t : Student => t.name == name := rfl
  rw [hcomp]
  have hcount : db.students.countP (fun t => t.name == name)
      = (db.students.map Student.name).count name := by
    rw [List.count, List.countP_map]; rfl
  rw [hcount]
  exact List.count_eq_one_of_mem hnodup hmem

/-- Witness for C3: the store holding only "Amy", adding "Amy" again. -/
theorem add_student_duplicate_rejected_witness :
    add_student dbAmy "Amy" = (false, dbAmy) ∧
    ((get_students (add_student dbAmy "Amy").2).filter
      (fun p => p.2 == "Amy")).length = 1 :=
  add_student_duplicate_rejected dbAmy "Amy" (by decide) (by decide)

/-- C4: `get_students` returns all (id, name) pairs of the store sorted by
name ascending (BINARY collation), and two stores holding the same rows in
different insertion orders produce the same listing. -/
theorem get_students_sorted_by_name (db db' : DB)
    (hperm : db'.students.Perm db.students)
    (hnodup : (db.students.map Student.name).Nodup) :
    List.Sorted studentNameLE (get_students db) ∧
    (get_students db).Perm (db.students.map (fun s => (s.id, s.name))) ∧
    get_students db' = get_students db := by
  have hsorted : ∀ d : DB, List.Sorted studentNameLE (get_students d) :=
    fun d => List.sorted_insertionSort studentNameLE _
  have hp : ∀ d : DB,
      (get_students d).Perm (d.students.map (fun s => (s.id, s.name))) :=
    fun d => List.perm_insertionSort studentNameLE _
  refine ⟨hsorted db, hp db, ?_⟩
  have hmain : (get_students db').Perm (get_students db) :=
    (hp db').trans ((hperm.map _).trans (hp db).symm)
  have hnd : ((get_students db).map Prod.snd).Nodup := by
    have h1 := (hp db).map Prod.snd
    have h2 : (db.students.map (fun s => (s.id, s.name))).map Prod.snd
        = db.students.map Student.name := by
      rw [List.map_map]; rfl
    rw [h1.nodup_iff, h2]; exact hnodup
  have hnd' : ((get_students db').map Prod.snd).Nodup := by
    rw [(hmain.map Prod.snd).nodup_iff]; exact hnd
  have strict : ∀ l : List (Nat × String), List.Sorted studentNameLE l →
      (l.map Prod.snd).Nodup →
      l.Pairwise (fun a b => stringLt a.2 b.2 = true) := by
    intro l hsl hnl
    have hne : l.Pairwise (fun a b => a.2 ≠ b.2) := List.pairwise_map.mp hnl
    exact (List.Pairwise.and hsl hne).imp
      (fun h => stringLt_of_le_of_ne h.1 h.2)
  haveI : IsAntisymm (Nat × String) (fun a b => stringLt a.2 b.2 = true) :=
    ⟨fun a b h h' => absurd h' (by simp [stringLt_asymm h])⟩
  exact List.eq_of_perm_of_sorted hmain
    (strict _ (hsorted db') hnd') (strict _ (hsorted db) hnd)

/-- Witness for C4: "Zoe" inserted before "Amy" and the other way round
list identically. -/
theorem get_students_sorted_by_name_witness :
    List.Sorted studentNameLE (get_students dbZoeAmy) ∧
    (get_students dbZoeAmy).Perm
      (dbZoeAmy.students.map (fun s => (s.id, s.name))) ∧
    get_students dbAmyZoe = get_students dbZoeAmy :=
  get_students_sorted_by_name dbZoeAmy dbAmyZoe (by decide) (by decide)

/-- C5: `get_records` lists a student's records sorted by date descending;
in particular, of two returned records with distinct dates the one with the
later (BINARY-collation greater) date string comes first. -/
theorem get_records_date_descending (db : DB) (sid : Nat) :
    List.Sorted recordDateGE (get_records db sid) ∧
    List.Pairwise (fun a b : Nat × String × String =>
      a.2.1 ≠ b.2.1 → stringLt b.2.1 a.2.1 = true) (get_records db sid) := by
  have hs : List.Sorted recordDateGE (get_records db sid) :=
    List.sorted_insertionSort recordDateGE _
  exact ⟨hs, hs.imp (fun h hne => stringLt_of_le_of_ne h (Ne.symm hne))⟩

/-- C6: for an existing student, `add_record` followed by `get_records`
returns a tuple with exactly the stored date and content (and the freshly
assigned id). -/
theorem add_record_round_trip (db : DB) (sid : Nat) (date content : String)
    (_hexists : ∃ s ∈ db.students, s.id = sid) :
    (nextRecordId db, date, content) ∈
      get_records (add_record db sid date content) sid := by
  unfold get_records
  rw [List.mem_insertionSort]
  refine List.mem_map.mpr ⟨⟨db.recordSeq + 1, sid, date, content⟩, ?_, rfl⟩
  refine List.mem_filter.mpr ⟨?_, by simp⟩
  simp [add_record]

/-- Witness for C6: adding "Met with parent" on 2024-03-01 for Amy. -/
theorem add_record_round_trip_witness :
    (nextRecordId dbAmy, "2024-03-01", "Met with parent") ∈
      get_records (add_record dbAmy 1 "2024-03-01" "Met with parent") 1 :=
  add_record_round_trip dbAmy 1 "2024-03-01" "Met with parent" (by decide)

/-- C7: deleting an id absent from the respective table is a silent no-op:
the database is left exactly as it was. -/
theorem delete_absent_id_is_noop (db : DB) (sid rid : Nat)
    (hs : ∀ s ∈ db.students, s.id ≠ sid)
    (hr : ∀ r ∈ db.records, r.id ≠ rid) :
    delete_student db sid = db ∧ delete_record db rid = db := by
  constructor
  · show { db with students := _ } = db
    rw [List.filter_eq_self.mpr (fun s hsm => by
      simpa [bne_iff_ne] using hs s hsm)]
  · show { db with records := _ } = db
    rw [List.filter_eq_self.mpr (fun r hrm => by
      simpa [bne_iff_ne] using hr r hrm)]

/-- Witness for C7: ids 5 and 7 are absent from `dbAmy`. -/
theorem delete_absent_id_is_noop_witness :
    delete_student dbAmy 5 = dbAmy ∧ delete_record dbAmy 7 = dbAmy :=
  delete_absent_id_is_noop dbAmy 5 7 (by decide) (by decide)

/-- C8: `init_db` is idempotent and non-destructive: on a database whose
tables exist, any number of runs changes nothing; one run preserves all
student and record rows and afterwards both tables exist. -/
theorem init_db_idempotent (db : DB) (n : Nat)
    (hs : db.studentsTableExists = true) (hr : db.recordsTableExists = true) :
    init_db^[n] db = db ∧
    (∀ d : DB, init_db (init_db d) = init_db d) ∧
    (init_db db).students = db.students ∧
    (init_db db).records = db.records ∧
    (init_db db).studentsTableExists = true ∧
    (init_db db).recordsTableExists = true := by
  have key := init_db_of_tables_exist hs hr
  exact ⟨Function.iterate_fixed key n,
    fun d => init_db_of_tables_exist rfl rfl,
    by rw [key], by rw [key], by rw [key]; exact hs, by rw [key]; exact hr⟩

/-- Witness for C8: three runs of `init_db` on `dbAmy`. -/
theorem init_db_idempotent_witness :
    init_db^[3] dbAmy = dbAmy ∧
    (∀ d : DB, init_db (init_db d) = init_db d) ∧
    (init_db dbAmy).students = dbAmy.students ∧
    (init_db dbAmy).records = dbAmy.records ∧
    (init_db dbAmy).studentsTableExists = true ∧
    (init_db dbAmy).recordsTableExists = true :=
  init_db_idempotent dbAmy 3 (by decide) (by decide)

/-- Each store call preserves well-formedness and never decreases either
table's AUTOINCREMENT sequence. -/
theorem applyOp_WF_mono {db : DB} (hwf : db.WF) (op : Op) :
    (applyOp db op).WF ∧ db.studentSeq ≤ (applyOp db op).studentSeq ∧
      db.recordSeq ≤ (applyOp db op).recordSeq := by
  obtain ⟨hs, hr, hsid, hrid⟩ := hwf
  cases op with
  | opInitDb =>
      rw [applyOp, init_db_of_tables_exist hs hr]
      exact ⟨⟨hs, hr, hsid, hrid⟩, le_refl _, le_refl _⟩
  | opAddStudent name =>
      by_cases hdup : db.students.any (fun s => s.name == name) = true
      · simp only [applyOp, add_student, hdup, if_pos]
        exact ⟨⟨hs, hr, hsid, hrid⟩, le_refl _, le_refl _⟩
      · simp only [applyOp, add_student, hdup, if_neg]
        refine ⟨⟨hs, hr, ?_, hrid⟩, Nat.le_succ _, le_refl _⟩
        intro s hsm
        rcases List.mem_append.mp hsm with h | h
        · exact le_trans (hsid s h) (Nat.le_succ _)
        · simp only [List.mem_singleton] at h
          subst h
          simp
  | opDeleteStudent i =>
      refine ⟨⟨hs, hr, ?_, hrid⟩, le_refl _, le_refl _⟩
      intro s hsm
      exact hsid s (List.mem_of_mem_filter hsm)
  | opAddRecord sid date content =>
      refine ⟨⟨hs, hr, hsid, ?_⟩, le_refl _, Nat.le_succ _⟩
      intro r hrm
      rcases List.mem_append.mp hrm with h | h
      · exact le_trans (hrid r h) (Nat.le_succ _)
      · simp only [List.mem_singleton] at h
        subst h
        simp [applyOp, add_record]
  | opDeleteRecord i =>
      refine ⟨⟨hs, hr, hsid, ?_⟩, le_refl _, le_refl _⟩
      intro r hrm
      exact hrid r (List.mem_of_mem_filter hrm)

/-- Well-formedness and sequence monotonicity extend to call sequences. -/
theorem runOps_WF_mono {db : DB} (hwf : db.WF) (ops : List Op) :
    (runOps db ops).WF ∧ db.studentSeq ≤ (runOps db ops).studentSeq ∧
      db.recordSeq ≤ (runOps db ops).recordSeq := by
  induction ops generalizing db with
  | nil => exact ⟨hwf, le_refl _, le_refl _⟩
  | cons op ops ih =>
      obtain ⟨h1, h2, h3⟩ := applyOp_WF_mono hwf op
      obtain ⟨g1, g2, g3⟩ := ih h1
      exact ⟨g1, le_trans h2 g2, le_trans h3 g3⟩

/-- C10: AUTOINCREMENT ids are never reused.  Starting from any
well-formed state, every student or record row present after some call
sequence has an id strictly below the id that `add_student` or
`add_record` would assign after any further calls — so a deleted row's id
is never handed to a later entity. -/
theorem ids_never_reused (db : DB) (hwf : db.WF) (ops₁ ops₂ : List Op) :
    (∀ s ∈ (runOps db ops₁).students,
      s.id < nextStudentId (runOps db (ops₁ ++ ops₂))) ∧
    (∀ r ∈ (runOps db ops₁).records,
      r.id < nextRecordId (runOps db (ops₁ ++ ops₂))) := by
  obtain ⟨h1, -, -⟩ := runOps_WF_mono hwf ops₁
  obtain ⟨-, g2, g3⟩ := runOps_WF_mono h1 ops₂
  have hsplit : runOps db (ops₁ ++ ops₂) = runOps (runOps db ops₁) ops₂ := by
    simp [runOps, List.foldl_append]
  obtain ⟨-, -, hsid, hrid⟩ := h1
  constructor
  · intro s hsm
    rw [hsplit]
    exact Nat.lt_succ_of_le (le_trans (hsid s hsm) g2)
  · intro r hrm
    rw [hsplit]
    exact Nat.lt_succ_of_le (le_trans (hrid r hrm) g3)

/-- Witness for C10: after adding "Amy" (id 1), deleting her and adding
"Zoe", the next assigned student id stays above 1. -/
theorem ids_never_reused_witness :
    (∀ s ∈ (runOps dbEmpty [Op.opAddStudent "Amy"]).students,
      s.id < nextStudentId (runOps dbEmpty
        ([Op.opAddStudent "Amy"] ++
          [Op.opDeleteStudent 1, Op.opAddStudent "Zoe"]))) ∧
    (∀ r ∈ (runOps dbEmpty [Op.opAddStudent "Amy"]).records,
      r.id < nextRecordId (runOps dbEmpty
        ([Op.opAddStudent "Amy"] ++
          [Op.opDeleteStudent 1, Op.opAddStudent "Zoe"]))) :=
  ids_never_reused dbEmpty (by simp [DB.WF, dbEmpty])
    [Op.opAddStudent "Amy"] [Op.opDeleteStudent 1, Op.opAddStudent "Zoe"]

end StudentApp
